import Mathlib

/-!
Verification development for the databay repository.

Part 1 models the scheduling Planner. Its implementation is not shipped
under src/ (only its unit tests, src/test/test/unit/test_schedule_planner.py,
are), so the Planner state and operations are modelled from the spec
(sections 3, 4.1, 7 and 8).

Part 2 embeds the MongoOutlet sink from src/databay/outlets/mongo_outlet.py.
-/

set_option autoImplicit false

namespace Databay

/-! ## Part 1: the scheduling Planner (spec-modelled) -/

/-- Modelled from the spec: the error taxonomy of section 7. `intervalError`
is raised by `add_links` for an incompatible interval; `missingLinkError` by
`remove_links` for a Link that was never registered. -/
inductive PlannerError where
  | intervalError
  | missingLinkError
deriving DecidableEq, Repr

/-- Modelled from the spec: a Link as the Planner sees it — an identity and a
desired execution interval. Intervals are durations measured in an integral
unit (e.g. milliseconds), so that "exact integer multiple" is meaningful. -/
structure Link where
  id : Nat
  interval : Nat
deriving DecidableEq, Repr

/-- Modelled from the spec (section 3, Planner): a mapping from Link identity
to job binding, the polling resolution, the running flag, the
failure-containment flag, and the worker pool handle (present only while
running). A job binding stores its interval (section 3, Job binding). -/
structure Planner where
  refresh_interval : Nat
  links : List Nat
  jobs : List (Nat × Nat)
  running : Bool
  catch_exceptions : Bool
  thread_pool : Option Nat
deriving DecidableEq, Repr

/-- Modelled from the spec: a freshly constructed Planner — no Links, not
running, no worker pool handle. -/
def mkPlanner (refresh : Nat) (catch_exc : Bool) : Planner :=
  { refresh_interval := refresh
    links := []
    jobs := []
    running := false
    catch_exceptions := catch_exc
    thread_pool := none }

/-- Modelled from the spec (section 4.1, interval validation rule): a Link's
interval must be an exact integer multiple of the polling resolution and must
be greater than or equal to it. -/
def valid_interval (interval refresh : Nat) : Bool :=
  (interval % refresh == 0) && (decide (refresh ≤ interval))

/-- Modelled from the spec (section 4.1, `add_links`): validate the Link's
interval against the polling resolution; on success install a job binding and
register the Link; on failure raise `intervalError` with no state mutation.
The single-Link call is modelled. -/
def add_links (p : Planner) (l : Link) : Planner × Option PlannerError :=
  if valid_interval l.interval p.refresh_interval then
    ({ p with
        links := p.links ++ [l.id]
        jobs := p.jobs ++ [(l.id, l.interval)] }, none)
  else
    (p, some PlannerError.intervalError)

/-- Modelled from the spec (section 4.1, `remove_links`): remove and destroy
the Link's job binding and drop the Link from the managed set; raise
`missingLinkError` if the Link was never registered. -/
def remove_links (p : Planner) (lid : Nat) : Planner × Option PlannerError :=
  if lid ∈ p.links then
    ({ p with
        links := p.links.filter (fun x => x != lid)
        jobs := p.jobs.filter (fun e => e.1 != lid) }, none)
  else
    (p, some PlannerError.missingLinkError)

/-- The job binding currently held for a Link identity, if any (the Link's
job-binding slot of section 3). -/
def jobLookup (p : Planner) (lid : Nat) : Option Nat :=
  (p.jobs.find? (fun e => e.1 == lid)).map (fun e => e.2)

/-- Modelled from the spec (section 4.1, `start`): if not already running,
create the worker pool and mark the Planner running; a no-op while running. -/
def start (p : Planner) : Planner :=
  if p.running then p
  else { p with running := true, thread_pool := some 0 }

/-- Modelled from the spec (section 4.1, `shutdown`): stop the polling loop
and destroy the worker pool; afterwards `running` is false and the pool
handle is cleared. Idempotent. -/
def shutdown (p : Planner) : Planner :=
  { p with running := false, thread_pool := none }

/-- Modelled from the spec (sections 4.1 and 5): one polling tick. `failed`
records whether a dispatched transfer raised during this tick. A failure is
caught at the dispatch boundary: in catch mode the Planner keeps running
unchanged; in propagate mode it initiates its own shutdown, observed within
one polling resolution. -/
def tick (p : Planner) (failed : Bool) : Planner :=
  if p.running && failed then
    (if p.catch_exceptions then p else shutdown p)
  else p

/-- A Link fires on a tick exactly when the Planner is running and the Link
holds an active job binding. -/
def fires (p : Planner) (lid : Nat) : Bool :=
  p.running && (jobLookup p lid).isSome

/-- Planner states reachable from construction through the public operations
and polling ticks. -/
inductive Reachable : Planner → Prop where
  | init (refresh : Nat) (catch_exc : Bool) : Reachable (mkPlanner refresh catch_exc)
  | add {p : Planner} (l : Link) : Reachable p → Reachable (add_links p l).1
  | remove {p : Planner} (lid : Nat) : Reachable p → Reachable (remove_links p lid).1
  | start {p : Planner} : Reachable p → Reachable (start p)
  | shutdown {p : Planner} : Reachable p → Reachable (shutdown p)
  | tick {p : Planner} (failed : Bool) : Reachable p → Reachable (tick p failed)

/-! ## Part 2: the MongoOutlet sink (src/databay/outlets/mongo_outlet.py) -/

/-- A record payload: either a single document or a list of documents
(`isinstance(record.payload, list)` in `_group_by_collection`). Documents are
drawn from an abstract type `α`. -/
inductive Payload (α : Type) where
  | single (v : α)
  | list (vs : List α)
deriving DecidableEq, Repr

/-- A record as `_group_by_collection` consumes it: a payload and its
metadata, of which only the `mongodb_collection` key is read — modelled as
the optional value of that key. -/
structure Record (α : Type) where
  payload : Payload α
  mongodb_collection : Option String
deriving DecidableEq, Repr

/-- The MongoOutlet state. `collection` is the default collection name,
`_client` and `_db` model whether the MongoClient and Database handles are
set (`_db = false` means disconnected), `_collections` is the cached list of
collection names, `active` is the Outlet's active flag, and `db` is the
contents of the MongoDB database the outlet talks to (name-to-documents
mapping), which in the source lives server-side behind the `_db` handle.
The database name is fixed: `connect` is only ever invoked here without an
argument, so it always targets the outlet's own `database_name`. -/
structure MongoOutlet (α : Type) where
  collection : String
  _client : Bool
  _db : Bool
  _collections : List String
  active : Bool
  db : List (String × List α)
deriving DecidableEq, Repr

/-- Embeds `MongoOutlet.connect` (lines 150-173): if both handles are set (and the
database name matches, which it always does here), nothing changes;
otherwise a client and database handle are established. -/
def connect {α : Type} (s : MongoOutlet α) : MongoOutlet α :=
  if s._client && s._db then s
  else { s with _client := true, _db := true }

/-- Embeds `Database.list_collection_names`: the names of the collections existing
in the database. -/
def list_collection_names {α : Type} (db : List (String × List α)) :
    List String :=
  db.map (fun e => e.1)

/-- Errors arising inside `push`. `collectionNotFound` embeds
`MongoCollectionNotFound` (mongo_outlet.py line 13); `collectionInvalid`
models pymongo's `CollectionInvalid`, raised by `create_collection` on an
existing collection; `insertEmpty` models pymongo's `InvalidOperation`,
raised by `insert_many` on an empty document list. -/
inductive MongoErr where
  | collectionNotFound
  | collectionInvalid
  | insertEmpty
deriving DecidableEq, Repr

/-- Embeds `MongoOutlet._get_collection` (lines 198-215): if the name is not in the
cached `_collections`, refresh the cache from the database; if it is still
absent, `MongoCollectionNotFound` is raised (the returned Bool is false).
The cache refresh persists either way, as in the source. -/
def _get_collection {α : Type} (s : MongoOutlet α) (name : String) :
    MongoOutlet α × Bool :=
  if name ∈ s._collections then (s, true)
  else
    let s2 := { s with _collections := list_collection_names s.db }
    (s2, decide (name ∈ s2._collections))

/-- Embeds `MongoOutlet._add_collection` (lines 217-227): decorated with
`ensure_connection`, then `create_collection`, which adds an empty collection
and (per pymongo) raises `CollectionInvalid` if it already exists. -/
def _add_collection {α : Type} (s : MongoOutlet α) (name : String) :
    MongoOutlet α × Option MongoErr :=
  let s1 := if s._db then s else connect s
  if name ∈ list_collection_names s1.db then
    (s1, some MongoErr.collectionInvalid)
  else
    ({ s1 with db := s1.db ++ [(name, [])] }, none)

/-- Embeds `Collection.insert_many` as pymongo specifies it: raises
`InvalidOperation` on an empty document list, otherwise appends the documents
to the collection, creating it implicitly when missing. -/
def insert_many {α : Type} (db : List (String × List α)) (name : String)
    (items : List α) : List (String × List α) × Option MongoErr :=
  if items.isEmpty then (db, some MongoErr.insertEmpty)
  else if name ∈ list_collection_names db then
    (db.map (fun e => if e.1 = name then (e.1, e.2 ++ items) else e), none)
  else
    (db ++ [(name, items)], none)

/-- The documents a payload contributes to its group: a list payload is
spliced in (`collections[collection_name] += record.payload`), a non-list
payload is appended as one element. -/
def payloadItems {α : Type} : Payload α → List α
  | Payload.single v => [v]
  | Payload.list vs => vs

/-- The collection a record is routed to: the `mongodb_collection` metadata
value when present, the outlet's default collection otherwise
(mongo_outlet.py lines 103-105). -/
def targetCollection {α : Type} (defaultColl : String) (r : Record α) :
    String :=
  r.mongodb_collection.getD defaultColl

/-- Add one record's documents to the ordered group structure: create the
key with an empty list when absent (line 107), then splice or append the
payload (lines 109-112). Python dicts preserve insertion order. -/
def addToGroup {α : Type} :
    List (String × List α) → String → List α → List (String × List α)
  | [], name, items => [(name, items)]
  | (n, xs) :: rest, name, items =>
    if n = name then (n, xs ++ items) :: rest
    else (n, xs) :: addToGroup rest name items

/-- Embeds `MongoOutlet._group_by_collection` (lines 91-114). -/
def _group_by_collection {α : Type} (defaultColl : String)
    (records : List (Record α)) : List (String × List α) :=
  records.foldl
    (fun gs r => addToGroup gs (targetCollection defaultColl r)
      (payloadItems r.payload)) []

/-- The contents filed under a name in an association list (a database or a
grouping); empty when the name is absent. -/
def contentsOf {α : Type} (xs : List (String × List α)) (name : String) :
    List α :=
  match xs.find? (fun e => e.1 == name) with
  | some e => e.2
  | none => []

/-- Operations `push` performs against the database, in order: collection
lookups, collection creations, and insert attempts (with document count). -/
inductive MongoOp where
  | get (name : String)
  | create (name : String)
  | insert (name : String) (count : Nat)
deriving DecidableEq, Repr

/-- One iteration of the `push` loop (lines 136-148) for one grouped
collection: try `_get_collection`; on `MongoCollectionNotFound` only, call
`_add_collection` and retry `_get_collection` (this retry is outside the
try, so its failure would propagate); then `insert_many`. The op trace
records each attempted database operation. -/
def pushOne {α : Type} (s : MongoOutlet α) (name : String) (items : List α) :
    MongoOutlet α × List MongoOp × Option MongoErr :=
  let r1 := _get_collection s name
  if r1.2 then
    let r2 := insert_many r1.1.db name items
    ({ r1.1 with db := r2.1 },
      [MongoOp.get name, MongoOp.insert name items.length], r2.2)
  else
    let r2 := _add_collection r1.1 name
    match r2.2 with
    | some e => (r2.1, [MongoOp.get name, MongoOp.create name], some e)
    | none =>
      let r3 := _get_collection r2.1 name
      if r3.2 then
        let r4 := insert_many r3.1.db name items
        ({ r3.1 with db := r4.1 },
          [MongoOp.get name, MongoOp.create name, MongoOp.get name,
            MongoOp.insert name items.length], r4.2)
      else
        (r3.1, [MongoOp.get name, MongoOp.create name, MongoOp.get name],
          some MongoErr.collectionNotFound)

/-- The `for collection_name, collection_records in ...` loop of `push`
(lines 136-148): process groups in order; an exception aborts the loop,
leaving earlier mutations in place. -/
def pushGroups {α : Type} :
    MongoOutlet α → List (String × List α) →
      MongoOutlet α × List MongoOp × Option MongoErr
  | s, [] => (s, [], none)
  | s, (name, items) :: rest =>
    let r1 := pushOne s name items
    match r1.2.2 with
    | some e => (r1.1, r1.2.1, some e)
    | none =>
      let r2 := pushGroups r1.1 rest
      (r2.1, r1.2.1 ++ r2.2.1, r2.2.2)

/-- Embeds `MongoOutlet.push` (lines 116-148): the `ensure_connection_async`
decorator connects first if `_db` is unset; then the active check returns
early; then records are grouped by collection and each group is written. -/
def push {α : Type} (s : MongoOutlet α) (records : List (Record α)) :
    MongoOutlet α × List MongoOp × Option MongoErr :=
  let s1 := if s._db then s else connect s
  if s1.active then
    pushGroups s1 (_group_by_collection s1.collection records)
  else (s1, [], none)

/-- Specification-side routing function for comparison with the grouping the
source computes: the in-order concatenation of the payload documents of
exactly those records routed to `name`. -/
def recordsFor {α : Type} (defaultColl : String) :
    List (Record α) → String → List α
  | [], _ => []
  | r :: rest, name =>
    (if targetCollection defaultColl r = name then payloadItems r.payload
      else []) ++ recordsFor defaultColl rest name

lemma valid_interval_iff (interval refresh : Nat) (hR : 0 < refresh) :
    valid_interval interval refresh = true ↔
      ∃ k, 1 ≤ k ∧ interval = k * refresh := by
  unfold valid_interval
  simp only [Bool.and_eq_true, beq_iff_eq, decide_eq_true_eq]
  constructor
  · rintro ⟨h1, h2⟩
    have hd := Nat.div_add_mod interval refresh
    rw [h1, Nat.add_zero] at hd
    refine ⟨interval / refresh, ?_, ?_⟩
    · rcases Nat.eq_zero_or_pos (interval / refresh) with hk | hk
      · exfalso
        rw [hk, Nat.mul_zero] at hd
        rw [← hd] at h2
        exact Nat.lt_irrefl 0 (Nat.lt_of_lt_of_le hR h2)
      · exact hk
    · rw [Nat.mul_comm] at hd
      exact hd.symm
  · rintro ⟨k, hk, rfl⟩
    refine ⟨Nat.mul_mod_left k refresh, ?_⟩
    calc refresh = 1 * refresh := (Nat.one_mul refresh).symm
      _ ≤ k * refresh := Nat.mul_le_mul_right refresh hk

/-- Claim C1: `add_links` succeeds exactly when the Link's interval is a
positive integer multiple of the Planner's polling resolution; otherwise it
raises `intervalError` and leaves the Planner unchanged, so the Link stays
unregistered and no job binding is created for it. -/
theorem add_links_interval_rule (p : Planner) (l : Link)
    (hR : 0 < p.refresh_interval) :
    ((add_links p l).2 = none ↔
      ∃ k, 1 ≤ k ∧ l.interval = k * p.refresh_interval)
    ∧ ((add_links p l).2 ≠ none →
        add_links p l = (p, some PlannerError.intervalError)) := by
  have hiff := valid_interval_iff l.interval p.refresh_interval hR
  by_cases h : valid_interval l.interval p.refresh_interval = true
  · rw [← hiff]
    simp [add_links, h]
  · rw [← hiff]
    simp [add_links, h]

theorem add_links_interval_rule_witness :
    (add_links (mkPlanner 2 true) ⟨0, 6⟩).2 = none :=
  (add_links_interval_rule (mkPlanner 2 true) ⟨0, 6⟩ (by decide)).1.mpr
    ⟨3, by decide, by decide⟩

/-- Claim C2: After a transfer failure on a tick of a running Planner, the
subsequent running state depends only on the failure-containment mode: in
catch mode the Planner keeps running through any number of failing ticks and
the Link keeps firing on schedule; in propagate mode `running` becomes false
within one polling tick of the failure, with no caller invoking shutdown. -/
theorem failure_containment_policy (p : Planner) (lid : Nat)
    (hrun : p.running = true) :
    (p.catch_exceptions = true →
      ∀ n : Nat, ((fun q => tick q true)^[n] p).running = true
        ∧ fires ((fun q => tick q true)^[n] p) lid = fires p lid)
    ∧ (p.catch_exceptions = false → (tick p true).running = false) := by
  constructor
  · intro hc n
    have hfix : tick p true = p := by
      unfold tick
      simp [hrun, hc]
    have hiter : (fun q => tick q true)^[n] p = p := by
      induction n with
      | zero => rfl
      | succ m ih => rw [Function.iterate_succ_apply, hfix, ih]
    rw [hiter]
    exact ⟨hrun, rfl⟩
  · intro hc
    unfold tick shutdown
    simp [hrun, hc]

theorem failure_containment_policy_witness :
    (tick { mkPlanner 1 false with running := true } true).running = false :=
  (failure_containment_policy { mkPlanner 1 false with running := true }
    0 rfl).2 rfl

/-- Claim C3: Every completed shutdown leaves `running` false and the worker
pool handle cleared, and in every reachable Planner state `running = false`
implies that no worker pool handle exists. -/
theorem shutdown_clears_pool (p : Planner) (hp : Reachable p) :
    ((shutdown p).running = false ∧ (shutdown p).thread_pool = none)
    ∧ (p.running = false → p.thread_pool = none) := by
  refine ⟨⟨rfl, rfl⟩, ?_⟩
  induction hp with
  | init refresh catch_exc => intro; rfl
  | add l hp ih =>
    unfold add_links
    split <;> simpa using ih
  | remove lid hp ih =>
    unfold remove_links
    split <;> simpa using ih
  | start hp ih =>
    unfold start
    split
    · exact ih
    · intro h
      simp at h
  | shutdown hp ih => intro; rfl
  | tick failed hp ih =>
    unfold tick
    split
    · split
      · exact ih
      · intro; rfl
    · exact ih

theorem shutdown_clears_pool_witness :
    (mkPlanner 1 true).thread_pool = none :=
  (shutdown_clears_pool (mkPlanner 1 true) (Reachable.init 1 true)).2 rfl

/-- Claim C4: For a Link with a valid interval that is not yet registered,
`add_links` followed by `remove_links` returns the Planner exactly to its
prior managed state: the Link is unregistered, no job binding for it remains,
and its job-binding slot is empty. -/
theorem add_remove_roundtrip (p : Planner) (l : Link)
    (hnl : l.id ∉ p.links)
    (hnj : ∀ e ∈ p.jobs, e.1 ≠ l.id)
    (hv : valid_interval l.interval p.refresh_interval = true) :
    remove_links (add_links p l).1 l.id = (p, none)
    ∧ jobLookup (remove_links (add_links p l).1 l.id).1 l.id = none := by
  have hadd : (add_links p l).1 =
      { p with
          links := p.links ++ [l.id]
          jobs := p.jobs ++ [(l.id, l.interval)] } := by
    unfold add_links
    rw [if_pos hv]
  have hmem : l.id ∈ (add_links p l).1.links := by
    rw [hadd]
    simp
  have hfl : p.links.filter (fun x => x != l.id) = p.links := by
    apply List.filter_eq_self.mpr
    intro a ha
    simp only [bne_iff_ne, ne_eq, decide_eq_true_eq]
    intro h
    exact hnl (h ▸ ha)
  have hfj : p.jobs.filter (fun e => e.1 != l.id) = p.jobs := by
    apply List.filter_eq_self.mpr
    intro e he
    simpa using hnj e he
  have hlinks : ((add_links p l).1.links).filter (fun x => x != l.id)
      = p.links := by
    rw [hadd]
    simp only [List.filter_append, hfl]
    simp
  have hjobs : ((add_links p l).1.jobs).filter (fun e => e.1 != l.id)
      = p.jobs := by
    rw [hadd]
    simp only [List.filter_append, hfj]
    simp
  have hrem : remove_links (add_links p l).1 l.id = (p, none) := by
    unfold remove_links
    rw [if_pos hmem, hlinks, hjobs, hadd]
  refine ⟨hrem, ?_⟩
  rw [hrem]
  unfold jobLookup
  rw [List.find?_eq_none.mpr]
  · rfl
  · intro e he
    simpa using hnj e he

theorem add_remove_roundtrip_witness :
    remove_links (add_links (mkPlanner 2 true) ⟨7, 4⟩).1 7
      = (mkPlanner 2 true, none) :=
  (add_remove_roundtrip (mkPlanner 2 true) ⟨7, 4⟩ (by decide)
    (by intro e he; simp [mkPlanner] at he) (by decide)).1

/-- Claim C5: `remove_links` on a Link that is not currently registered raises
`missingLinkError` and leaves the Planner's managed state unchanged. -/
theorem remove_missing_link (p : Planner) (lid : Nat)
    (h : lid ∉ p.links) :
    remove_links p lid = (p, some PlannerError.missingLinkError) := by
  unfold remove_links
  rw [if_neg h]

theorem remove_missing_link_witness :
    remove_links (mkPlanner 2 true) 5
      = (mkPlanner 2 true, some PlannerError.missingLinkError) :=
  remove_missing_link (mkPlanner 2 true) 5 (by decide)

/-! ### Lemmas about the MongoOutlet model -/

section MongoLemmas

variable {α : Type}

@[simp] lemma connect_active (s : MongoOutlet α) :
    (connect s).active = s.active := by
  unfold connect
  split <;> rfl

@[simp] lemma connect_db (s : MongoOutlet α) :
    (connect s).db = s.db := by
  unfold connect
  split <;> rfl

@[simp] lemma connect_collection (s : MongoOutlet α) :
    (connect s).collection = s.collection := by
  unfold connect
  split <;> rfl

@[simp] lemma connect_collections (s : MongoOutlet α) :
    (connect s)._collections = s._collections := by
  unfold connect
  split <;> rfl

@[simp] lemma _get_collection_db (s : MongoOutlet α) (name : String) :
    (_get_collection s name).1.db = s.db := by
  unfold _get_collection
  split <;> rfl

@[simp] lemma _get_collection_client (s : MongoOutlet α) (name : String) :
    (_get_collection s name).1._client = s._client := by
  unfold _get_collection
  split <;> rfl

@[simp] lemma _get_collection_dbflag (s : MongoOutlet α) (name : String) :
    (_get_collection s name).1._db = s._db := by
  unfold _get_collection
  split <;> rfl

@[simp] lemma _get_collection_active (s : MongoOutlet α) (name : String) :
    (_get_collection s name).1.active = s.active := by
  unfold _get_collection
  split <;> rfl

@[simp] lemma contentsOf_nil (name : String) :
    contentsOf ([] : List (String × List α)) name = [] := rfl

@[simp] lemma contentsOf_cons (k : String) (xs : List α)
    (rest : List (String × List α)) (name : String) :
    contentsOf ((k, xs) :: rest) name
      = if k = name then xs else contentsOf rest name := by
  by_cases h : k = name
  · unfold contentsOf
    rw [List.find?_cons_of_pos _ (by simpa using h), if_pos h]
  · unfold contentsOf
    rw [List.find?_cons_of_neg _ (by simpa using h), if_neg h]

lemma contentsOf_not_mem (xs : List (String × List α)) (name : String)
    (h : name ∉ list_collection_names xs) : contentsOf xs name = [] := by
  induction xs with
  | nil => rfl
  | cons g rest ih =>
    obtain ⟨k, v⟩ := g
    simp only [list_collection_names, List.map_cons, List.mem_cons,
      not_or] at h
    have hkn : ¬ k = name := fun hh => h.1 hh.symm
    rw [contentsOf_cons, if_neg hkn]
    exact ih (by simpa [list_collection_names] using h.2)

lemma contentsOf_append_left (xs ys : List (String × List α)) (name : String)
    (h : name ∈ list_collection_names xs) :
    contentsOf (xs ++ ys) name = contentsOf xs name := by
  induction xs with
  | nil => simp [list_collection_names] at h
  | cons g rest ih =>
    obtain ⟨k, v⟩ := g
    by_cases hk : k = name
    · simp [contentsOf_cons, hk]
    · simp only [list_collection_names, List.map_cons, List.mem_cons] at h
      rcases h with h | h
      · exact absurd h.symm hk
      · simp only [List.cons_append, contentsOf_cons, if_neg hk]
        exact ih (by simpa [list_collection_names] using h)

lemma contentsOf_append_right (xs ys : List (String × List α)) (name : String)
    (h : name ∉ list_collection_names xs) :
    contentsOf (xs ++ ys) name = contentsOf ys name := by
  induction xs with
  | nil => rfl
  | cons g rest ih =>
    obtain ⟨k, v⟩ := g
    simp only [list_collection_names, List.map_cons, List.mem_cons,
      not_or] at h
    have hkn : ¬ k = name := fun hh => h.1 hh.symm
    simp only [List.cons_append, contentsOf_cons, if_neg hkn]
    exact ih (by simpa [list_collection_names] using h.2)

lemma contentsOf_updMap_self (db : List (String × List α)) (n : String)
    (its : List α) (h : n ∈ list_collection_names db) :
    contentsOf (db.map (fun e => if e.1 = n then (e.1, e.2 ++ its) else e)) n
      = contentsOf db n ++ its := by
  induction db with
  | nil => simp [list_collection_names] at h
  | cons g rest ih =>
    obtain ⟨k, v⟩ := g
    by_cases hk : k = n
    · subst hk
      simp
    · simp only [list_collection_names, List.map_cons, List.mem_cons] at h
      rcases h with h | h
      · exact absurd h.symm hk
      · simp only [List.map_cons]
        rw [if_neg (by simpa using hk)]
        simp only [contentsOf_cons, if_neg hk]
        exact ih (by simpa [list_collection_names] using h)

lemma contentsOf_updMap_other (db : List (String × List α)) (n : String)
    (its : List α) (m : String) (hm : m ≠ n) :
    contentsOf (db.map (fun e => if e.1 = n then (e.1, e.2 ++ its) else e)) m
      = contentsOf db m := by
  induction db with
  | nil => rfl
  | cons g rest ih =>
    obtain ⟨k, v⟩ := g
    by_cases hk : k = n
    · subst hk
      simp [Ne.symm hm, ih]
    · by_cases hkm : k = m <;> simp [hk, hkm, hm, ih]

lemma contentsOf_addToGroup (gs : List (String × List α)) (n name : String)
    (items : List α) :
    contentsOf (addToGroup gs n items) name
      = if n = name then contentsOf gs name ++ items
        else contentsOf gs name := by
  induction gs with
  | nil =>
    by_cases h : n = name <;> simp [addToGroup, contentsOf_cons, h]
  | cons g rest ih =>
    obtain ⟨k, xs⟩ := g
    by_cases hk : k = n
    · subst hk
      by_cases h : k = name <;> simp [addToGroup, h]
    · have hnk : ¬ n = k := fun hh => hk hh.symm
      by_cases h : k = name
      · subst h
        simp [addToGroup, hk, hnk]
      · simp [addToGroup, hk, h, ih]

lemma contentsOf_groupFold (d : String) (records : List (Record α))
    (name : String) :
    ∀ gs : List (String × List α),
      contentsOf (records.foldl
        (fun acc r => addToGroup acc (targetCollection d r)
          (payloadItems r.payload)) gs) name
      = contentsOf gs name ++ recordsFor d records name := by
  induction records with
  | nil =>
    intro gs
    simp [recordsFor]
  | cons r rest ih =>
    intro gs
    rw [List.foldl_cons, ih, contentsOf_addToGroup]
    by_cases h : targetCollection d r = name
    · simp [recordsFor, h, List.append_assoc]
    · simp [recordsFor, h]

lemma names_addToGroup (gs : List (String × List α)) (n : String)
    (items : List α) :
    list_collection_names (addToGroup gs n items)
      = if n ∈ list_collection_names gs then list_collection_names gs
        else list_collection_names gs ++ [n] := by
  induction gs with
  | nil => simp [addToGroup, list_collection_names]
  | cons g rest ih =>
    obtain ⟨k, xs⟩ := g
    by_cases hk : k = n
    · subst hk
      simp [addToGroup, list_collection_names]
    · have hnk : ¬ n = k := fun hh => hk hh.symm
      simp only [addToGroup]
      rw [if_neg (by simpa using hk)]
      simp only [list_collection_names, List.map_cons] at *
      by_cases hm : n ∈ List.map (fun e => e.1) rest
      · rw [if_pos (by simp [hm]), ih, if_pos hm]
      · rw [if_neg (by simp [hm, hnk]), ih, if_neg hm]
        simp

lemma names_nodup_addToGroup (gs : List (String × List α)) (n : String)
    (items : List α) (h : (list_collection_names gs).Nodup) :
    (list_collection_names (addToGroup gs n items)).Nodup := by
  rw [names_addToGroup]
  split
  · exact h
  · next hmem => simp [List.nodup_append, h, hmem]

lemma names_nodup_groupFold (d : String) (records : List (Record α)) :
    ∀ gs : List (String × List α), (list_collection_names gs).Nodup →
      (list_collection_names (records.foldl
        (fun acc r => addToGroup acc (targetCollection d r)
          (payloadItems r.payload)) gs)).Nodup := by
  induction records with
  | nil => intro gs h; exact h
  | cons r rest ih =>
    intro gs h
    rw [List.foldl_cons]
    exact ih _ (names_nodup_addToGroup _ _ _ h)

lemma group_names_nodup (d : String) (records : List (Record α)) :
    (list_collection_names (_group_by_collection d records)).Nodup :=
  names_nodup_groupFold d records [] (by simp [list_collection_names])

end MongoLemmas

/-- Claim C10: The documents grouped under each collection name are the
in-order concatenation of the payloads of the records routed to that name,
with a list payload spliced in element by element and a non-list payload
contributing a single element. -/
theorem group_by_collection_splices {α : Type} (defaultColl : String)
    (records : List (Record α)) (name : String) :
    contentsOf (_group_by_collection defaultColl records) name
      = recordsFor defaultColl records name := by
  have h := contentsOf_groupFold defaultColl records name []
  simpa [_group_by_collection] using h

section MongoLemmas2

variable {α : Type}

lemma insert_many_err_cases (db : List (String × List α)) (n : String)
    (its : List α) :
    (insert_many db n its).2 = none
    ∨ (insert_many db n its).2 = some MongoErr.insertEmpty := by
  unfold insert_many
  split
  · right; rfl
  · split
    · left; rfl
    · left; rfl

lemma insert_many_ok (db : List (String × List α)) (n : String)
    (its : List α) (h : its ≠ []) : (insert_many db n its).2 = none := by
  unfold insert_many
  rw [if_neg (by simpa using h)]
  split <;> rfl

lemma insert_many_ok_ne_nil (db : List (String × List α)) (n : String)
    (its : List α) (h : (insert_many db n its).2 = none) : its ≠ [] := by
  intro he
  subst he
  simp [insert_many] at h

lemma insert_many_contents_self (db : List (String × List α)) (n : String)
    (its : List α) (h : its ≠ []) :
    contentsOf (insert_many db n its).1 n = contentsOf db n ++ its := by
  unfold insert_many
  rw [if_neg (by simpa using h)]
  by_cases hm : n ∈ list_collection_names db
  · rw [if_pos hm]
    exact contentsOf_updMap_self db n its hm
  · rw [if_neg hm]
    rw [contentsOf_append_right _ _ _ hm, contentsOf_not_mem _ _ hm]
    simp

lemma insert_many_contents_other (db : List (String × List α)) (n : String)
    (its : List α) (m : String) (hmn : m ≠ n) :
    contentsOf (insert_many db n its).1 m = contentsOf db m := by
  unfold insert_many
  split
  · rfl
  · by_cases h2 : n ∈ list_collection_names db
    · rw [if_pos h2]
      exact contentsOf_updMap_other db n its m hmn
    · rw [if_neg h2]
      by_cases h3 : m ∈ list_collection_names db
      · exact contentsOf_append_left _ _ _ h3
      · rw [contentsOf_append_right _ _ _ h3, contentsOf_not_mem _ _ h3]
        simp [Ne.symm hmn]

lemma _get_collection_found (s : MongoOutlet α) (name : String)
    (h : name ∈ list_collection_names s.db) :
    (_get_collection s name).2 = true := by
  unfold _get_collection
  split
  · rfl
  · simp [h]

lemma _get_collection_false_not_mem (s : MongoOutlet α) (name : String)
    (h : (_get_collection s name).2 = false) :
    name ∉ list_collection_names s.db := by
  intro hm
  rw [_get_collection_found s name hm] at h
  cases h

lemma _get_collection_eq_of_not_mem (s : MongoOutlet α) (name : String)
    (hc : name ∉ s._collections) :
    _get_collection s name
      = ({ s with _collections := list_collection_names s.db },
          decide (name ∈ list_collection_names s.db)) := by
  unfold _get_collection
  rw [if_neg hc]

lemma _add_collection_ok (s : MongoOutlet α) (name : String)
    (h : name ∉ list_collection_names s.db) :
    (_add_collection s name).1.db = s.db ++ [(name, [])]
    ∧ (_add_collection s name).2 = none := by
  simp only [_add_collection]
  have hdb1 : (if s._db = true then s else connect s).db = s.db := by
    split <;> simp
  rw [hdb1, if_neg h]
  exact ⟨rfl, rfl⟩

lemma _add_collection_fail (s : MongoOutlet α) (name : String)
    (h : name ∈ list_collection_names s.db) :
    (_add_collection s name).2 = some MongoErr.collectionInvalid := by
  simp only [_add_collection]
  have hdb1 : (if s._db = true then s else connect s).db = s.db := by
    split <;> simp
  rw [hdb1, if_pos h]

lemma _add_collection_err_cases (s : MongoOutlet α) (name : String) :
    (_add_collection s name).2 = none
    ∨ (_add_collection s name).2 = some MongoErr.collectionInvalid := by
  by_cases h : name ∈ list_collection_names s.db
  · right; exact _add_collection_fail s name h
  · left; exact (_add_collection_ok s name h).2

lemma _add_collection_none_mem (s : MongoOutlet α) (name : String)
    (h : (_add_collection s name).2 = none) :
    name ∉ list_collection_names s.db
    ∧ (_add_collection s name).1.db = s.db ++ [(name, [])] := by
  by_cases hm : name ∈ list_collection_names s.db
  · rw [_add_collection_fail s name hm] at h
    cases h
  · exact ⟨hm, (_add_collection_ok s name hm).1⟩

lemma _add_collection_preserves (s : MongoOutlet α) (name : String)
    (hdb : s._db = true) :
    (_add_collection s name).1._db = true
    ∧ (_add_collection s name).1._client = s._client
    ∧ (_add_collection s name).1.active = s.active := by
  simp only [_add_collection]
  rw [if_pos hdb]
  split
  · exact ⟨hdb, rfl, rfl⟩
  · exact ⟨hdb, rfl, rfl⟩

lemma pushOne_ok_contents (s : MongoOutlet α) (n : String) (its : List α)
    (hok : (pushOne s n its).2.2 = none) :
    contentsOf (pushOne s n its).1.db n = contentsOf s.db n ++ its
    ∧ ∀ m, m ≠ n →
        contentsOf (pushOne s n its).1.db m = contentsOf s.db m := by
  simp only [pushOne] at hok ⊢
  cases hf : (_get_collection s n).2 with
  | true =>
    simp only [hf, if_true] at hok ⊢
    simp only [_get_collection_db] at hok ⊢
    have hne := insert_many_ok_ne_nil _ _ _ hok
    refine ⟨?_, ?_⟩
    · simpa using insert_many_contents_self s.db n its hne
    · intro m hm
      simpa using insert_many_contents_other s.db n its m hm
  | false =>
    simp only [hf, Bool.false_eq_true, if_false] at hok ⊢
    cases ha : (_add_collection (_get_collection s n).1 n).2 with
    | some e => simp [ha] at hok
    | none =>
      simp only [ha] at hok ⊢
      obtain ⟨hnm, hdbeq⟩ := _add_collection_none_mem _ _ ha
      simp only [_get_collection_db] at hnm hdbeq
      have hmem : n ∈ list_collection_names
          (_add_collection (_get_collection s n).1 n).1.db := by
        rw [hdbeq]
        simp [list_collection_names]
      have hf3 := _get_collection_found _ n hmem
      simp only [hf3, if_true] at hok ⊢
      simp only [_get_collection_db, hdbeq] at hok ⊢
      have hne := insert_many_ok_ne_nil _ _ _ hok
      refine ⟨?_, ?_⟩
      · rw [insert_many_contents_self _ n its hne,
          contentsOf_append_right _ _ _ hnm, contentsOf_not_mem _ _ hnm]
        simp
      · intro m hm
        rw [insert_many_contents_other _ n its m hm]
        by_cases h3 : m ∈ list_collection_names s.db
        · exact contentsOf_append_left _ _ _ h3
        · rw [contentsOf_append_right _ _ _ h3, contentsOf_not_mem _ _ h3]
          simp [Ne.symm hm]

lemma pushOne_no_notFound (s : MongoOutlet α) (n : String) (its : List α) :
    (pushOne s n its).2.2 ≠ some MongoErr.collectionNotFound := by
  simp only [pushOne]
  cases hf : (_get_collection s n).2 with
  | true =>
    simp only [hf, if_true, _get_collection_db]
    rcases insert_many_err_cases s.db n its with h | h <;> simp [h]
  | false =>
    simp only [hf, Bool.false_eq_true, if_false]
    cases ha : (_add_collection (_get_collection s n).1 n).2 with
    | some e =>
      rcases _add_collection_err_cases (_get_collection s n).1 n with h | h
      · rw [ha] at h
        cases h
      · rw [ha] at h
        injection h with he
        subst he
        simp
    | none =>
      simp only [ha]
      obtain ⟨hnm, hdbeq⟩ := _add_collection_none_mem _ _ ha
      have hmem : n ∈ list_collection_names
          (_add_collection (_get_collection s n).1 n).1.db := by
        rw [hdbeq]
        simp [list_collection_names]
      have hf3 := _get_collection_found _ n hmem
      simp only [hf3, if_true, _get_collection_db]
      rcases insert_many_err_cases
          (_add_collection (_get_collection s n).1 n).1.db n its with h | h <;>
        simp [h]

lemma pushOne_empty_err (s : MongoOutlet α) (nm : String) :
    (pushOne s nm []).2.2 = some MongoErr.insertEmpty := by
  simp only [pushOne]
  cases hf : (_get_collection s nm).2 with
  | true => simp [hf, insert_many]
  | false =>
    have hnm : nm ∉ list_collection_names s.db :=
      _get_collection_false_not_mem s nm hf
    have hnm1 : nm ∉ list_collection_names (_get_collection s nm).1.db := by
      simpa using hnm
    obtain ⟨hdbeq, hnone⟩ := _add_collection_ok (_get_collection s nm).1 nm hnm1
    have hmem : nm ∈ list_collection_names
        (_add_collection (_get_collection s nm).1 nm).1.db := by
      rw [hdbeq]
      simp [list_collection_names]
    have hf3 := _get_collection_found _ nm hmem
    simp [hf, hnone, hf3, insert_many]

lemma pushOne_conn (s : MongoOutlet α) (n : String) (its : List α)
    (hdb : s._db = true) :
    (pushOne s n its).1._db = true
    ∧ (pushOne s n its).1._client = s._client := by
  simp only [pushOne]
  cases hf : (_get_collection s n).2 with
  | true =>
    simp only [hf, if_true]
    exact ⟨by simpa using hdb, by simp⟩
  | false =>
    simp only [hf, Bool.false_eq_true, if_false]
    have hp := _add_collection_preserves (_get_collection s n).1 n
      (by simpa using hdb)
    cases ha : (_add_collection (_get_collection s n).1 n).2 with
    | some e =>
      simp only [ha]
      exact ⟨hp.1, by rw [hp.2.1]; simp⟩
    | none =>
      simp only [ha]
      cases hf3 : (_get_collection (_add_collection (_get_collection s n).1 n).1 n).2 with
      | true =>
        simp only [hf3, if_true]
        refine ⟨by simpa using hp.1, ?_⟩
        rw [_get_collection_client, hp.2.1]
        simp
      | false =>
        simp only [hf3, Bool.false_eq_true, if_false]
        refine ⟨by simpa using hp.1, ?_⟩
        rw [_get_collection_client, hp.2.1]
        simp

lemma pushGroups_conn :
    ∀ (gs : List (String × List α)) (s : MongoOutlet α), s._db = true →
      (pushGroups s gs).1._db = true
      ∧ (pushGroups s gs).1._client = s._client := by
  intro gs
  induction gs with
  | nil =>
    intro s hdb
    exact ⟨hdb, rfl⟩
  | cons g rest ih =>
    obtain ⟨n, its⟩ := g
    intro s hdb
    have h1 := pushOne_conn s n its hdb
    simp only [pushGroups]
    cases he : (pushOne s n its).2.2 with
    | some e =>
      simp only [he]
      exact h1
    | none =>
      simp only [he]
      have h2 := ih (pushOne s n its).1 h1.1
      exact ⟨h2.1, h2.2.trans h1.2⟩

lemma pushGroups_no_notFound :
    ∀ (gs : List (String × List α)) (s : MongoOutlet α),
      (pushGroups s gs).2.2 ≠ some MongoErr.collectionNotFound := by
  intro gs
  induction gs with
  | nil =>
    intro s
    simp [pushGroups]
  | cons g rest ih =>
    obtain ⟨n, its⟩ := g
    intro s
    simp only [pushGroups]
    cases h1 : (pushOne s n its).2.2 with
    | some e =>
      have hne := pushOne_no_notFound s n its
      rw [h1] at hne
      simpa using hne
    | none =>
      simp only [h1]
      exact ih _

lemma pushGroups_contents :
    ∀ (gs : List (String × List α)) (s : MongoOutlet α),
      (list_collection_names gs).Nodup →
      (pushGroups s gs).2.2 = none →
      ∀ name, contentsOf (pushGroups s gs).1.db name
        = contentsOf s.db name ++ contentsOf gs name := by
  intro gs
  induction gs with
  | nil =>
    intro s _ _ name
    simp [pushGroups]
  | cons g rest ih =>
    obtain ⟨n, its⟩ := g
    intro s hnd hok name
    have hnd2 : (n ∉ list_collection_names rest)
        ∧ (list_collection_names rest).Nodup := by
      have : (n :: list_collection_names rest).Nodup := by
        simpa [list_collection_names] using hnd
      exact List.nodup_cons.mp this
    simp only [pushGroups] at hok ⊢
    cases h1 : (pushOne s n its).2.2 with
    | some e => simp [h1] at hok
    | none =>
      simp only [h1] at hok ⊢
      have hco := pushOne_ok_contents s n its h1
      rw [ih (pushOne s n its).1 hnd2.2 hok name]
      by_cases hnn : name = n
      · subst hnn
        rw [hco.1, contentsOf_not_mem rest name hnd2.1, contentsOf_cons,
          if_pos rfl]
        simp
      · rw [hco.2 name hnn, contentsOf_cons,
          if_neg (fun hh => hnn hh.symm)]

lemma wrapper_db (s : MongoOutlet α) :
    (if s._db then s else connect s)._db = true := by
  split
  · next h => exact h
  · next h =>
    have hf : s._db = false := by
      revert h
      cases s._db <;> simp
    unfold connect
    rw [if_neg (by simp [hf])]

lemma wrapper_active (s : MongoOutlet α) :
    (if s._db then s else connect s).active = s.active := by
  split <;> simp

lemma wrapper_dbcontents (s : MongoOutlet α) :
    (if s._db then s else connect s).db = s.db := by
  split <;> simp

lemma wrapper_collection (s : MongoOutlet α) :
    (if s._db then s else connect s).collection = s.collection := by
  split <;> simp

lemma wrapper_collections (s : MongoOutlet α) :
    (if s._db then s else connect s)._collections = s._collections := by
  split <;> simp

lemma pushOne_fresh (s : MongoOutlet α) (n : String) (its : List α)
    (hc : n ∉ s._collections)
    (hdb : n ∉ list_collection_names s.db) (hne : its ≠ []) :
    (pushOne s n its).2.1
      = [MongoOp.get n, MongoOp.create n, MongoOp.get n,
         MongoOp.insert n its.length]
    ∧ (pushOne s n its).2.2 = none := by
  simp only [pushOne]
  have hget1 : _get_collection s n
      = ({ s with _collections := list_collection_names s.db }, false) := by
    rw [_get_collection_eq_of_not_mem s n hc]
    simp [hdb]
  rw [hget1]
  simp only [Bool.false_eq_true, if_false]
  have hadd := _add_collection_ok
    ({ s with _collections := list_collection_names s.db }) n (by simpa using hdb)
  rw [hadd.2]
  have hmem : n ∈ list_collection_names
      (_add_collection { s with _collections := list_collection_names s.db } n).1.db := by
    rw [hadd.1]
    simp [list_collection_names]
  have hf3 := _get_collection_found _ n hmem
  rw [hf3]
  simp only [if_true]
  refine ⟨by trivial, insert_many_ok _ _ _ hne⟩

end MongoLemmas2

/-- Claim C6: While the sink is active, a completed push writes every record's
payload to the collection named by the record's `mongodb_collection` metadata
key when present and to the sink's default collection otherwise: each
collection ends with exactly the documents of the records routed to it
appended, in order. -/
theorem push_routes_by_metadata {α : Type} (s : MongoOutlet α)
    (records : List (Record α)) (name : String)
    (hact : s.active = true) (hok : (push s records).2.2 = none) :
    contentsOf (push s records).1.db name
      = contentsOf s.db name ++ recordsFor s.collection records name := by
  simp only [push] at hok ⊢
  have hs1a : (if s._db then s else connect s).active = true :=
    (wrapper_active s).trans hact
  rw [if_pos hs1a] at hok ⊢
  rw [pushGroups_contents _ _ (group_names_nodup _ _) hok name]
  rw [wrapper_dbcontents, wrapper_collection]
  have hg := contentsOf_groupFold s.collection records name []
  simp only [contentsOf_nil, List.nil_append] at hg
  rw [show _group_by_collection s.collection records
      = records.foldl (fun acc r => addToGroup acc
          (targetCollection s.collection r) (payloadItems r.payload)) []
    from rfl, hg]

theorem push_routes_by_metadata_witness :
    contentsOf (push (⟨"c", true, true, [], true, []⟩ : MongoOutlet Nat)
        [⟨Payload.single 5, none⟩]).1.db "c"
      = contentsOf (⟨"c", true, true, [], true, []⟩ : MongoOutlet Nat).db "c"
        ++ recordsFor "c" [⟨Payload.single 5, none⟩] "c" :=
  push_routes_by_metadata _ _ _ rfl (by decide)

/-- Claim C7: When a grouped collection is missing (not cached and not in the
database), push creates it and retries the lookup exactly once before
inserting — the operation trace is lookup, create, lookup, insert — and the
push completes with the documents stored; a `MongoCollectionNotFound` never
escapes push, while other errors (here pymongo's empty-insert error)
propagate out of push to the caller. -/
theorem push_creates_missing_collection_once {α : Type} (s : MongoOutlet α)
    (name : String) (items : List α)
    (hact : s.active = true) (hc : name ∉ s._collections)
    (hdb : name ∉ list_collection_names s.db) (hne : items ≠ []) :
    ((push s [⟨Payload.list items, some name⟩]).2.1
        = [MongoOp.get name, MongoOp.create name, MongoOp.get name,
           MongoOp.insert name items.length]
      ∧ (push s [⟨Payload.list items, some name⟩]).2.2 = none
      ∧ contentsOf (push s [⟨Payload.list items, some name⟩]).1.db name
          = items)
    ∧ (∀ (t : MongoOutlet α) (rs : List (Record α)),
        (push t rs).2.2 ≠ some MongoErr.collectionNotFound)
    ∧ (∀ (t : MongoOutlet α) (nm : String), t.active = true →
        (push t [⟨Payload.list [], some nm⟩]).2.2
          = some MongoErr.insertEmpty) := by
  refine ⟨?_, ?_, ?_⟩
  · simp only [push]
    have hs1a : (if s._db then s else connect s).active = true :=
      (wrapper_active s).trans hact
    rw [if_pos hs1a]
    have hgrp : _group_by_collection
        (if s._db then s else connect s).collection
        [⟨Payload.list items, some name⟩] = [(name, items)] := rfl
    rw [hgrp]
    have hone := pushOne_fresh (if s._db then s else connect s) name items
      (by rw [wrapper_collections]; exact hc)
      (by rw [wrapper_dbcontents]; exact hdb) hne
    have hokk : (pushGroups (if s._db then s else connect s)
        [(name, items)]).2.2 = none := by
      simp [pushGroups, hone.2]
    refine ⟨?_, hokk, ?_⟩
    · simp [pushGroups, hone.2, hone.1]
    · have hco := pushOne_ok_contents (if s._db then s else connect s)
        name items hone.2
      have hres : (pushGroups (if s._db then s else connect s)
          [(name, items)]).1 = (pushOne (if s._db then s else connect s)
            name items).1 := by
        simp [pushGroups, hone.2]
      rw [hres, hco.1, wrapper_dbcontents, contentsOf_not_mem _ _ hdb]
      simp
  · intro t rs
    simp only [push]
    split <;> split
    · exact pushGroups_no_notFound _ _
    · simp
    · exact pushGroups_no_notFound _ _
    · simp
  · intro t nm htact
    simp only [push]
    have hs1a : (if t._db then t else connect t).active = true :=
      (wrapper_active t).trans htact
    rw [if_pos hs1a]
    have hgrp : _group_by_collection
        (if t._db then t else connect t).collection
        ([⟨Payload.list [], some nm⟩] : List (Record α))
        = [(nm, ([] : List α))] := rfl
    rw [hgrp]
    have hemp := pushOne_empty_err (if t._db then t else connect t) nm
    simp [pushGroups, hemp]

theorem push_creates_missing_collection_once_witness :
    (push (⟨"c", true, true, [], true, []⟩ : MongoOutlet Nat)
        [⟨Payload.list [1, 2], some "x"⟩]).2.1
      = [MongoOp.get "x", MongoOp.create "x", MongoOp.get "x",
         MongoOp.insert "x" 2] :=
  (push_creates_missing_collection_once
    (⟨"c", true, true, [], true, []⟩ : MongoOutlet Nat) "x" [1, 2]
    rfl (by decide) (by decide) (by decide)).1.1

/-- Claim C8: A push issued while the sink's active flag is false returns
before grouping or inserting anything: no database operation is attempted,
no error arises, and every collection's contents are unchanged. -/
theorem push_inactive_noop {α : Type} (s : MongoOutlet α)
    (records : List (Record α)) (h : s.active = false) :
    (push s records).1.db = s.db
    ∧ (push s records).2.1 = []
    ∧ (push s records).2.2 = none := by
  simp only [push]
  have h1 : (if s._db then s else connect s).active = false :=
    (wrapper_active s).trans h
  rw [if_neg (by simp [h1])]
  exact ⟨wrapper_dbcontents s, rfl, rfl⟩

theorem push_inactive_noop_witness :
    (push (⟨"c", true, true, ["c"], false, [("c", [9])]⟩ : MongoOutlet Nat)
        [⟨Payload.single 5, none⟩]).1.db
      = (⟨"c", true, true, ["c"], false, [("c", [9])]⟩ : MongoOutlet Nat).db :=
  (push_inactive_noop
    (⟨"c", true, true, ["c"], false, [("c", [9])]⟩ : MongoOutlet Nat)
    [⟨Payload.single 5, none⟩] rfl).1

/-- Claim C9: A push issued while the sink is disconnected (`_db` unset) first
establishes the connection through the `ensure_connection_async` wrapper —
after push the client and database handles are set — and this happens even
when the active flag is false and nothing is written. -/
theorem push_connects_when_disconnected {α : Type} (s : MongoOutlet α)
    (records : List (Record α)) (h : s._db = false) :
    (push s records).1._client = true
    ∧ (push s records).1._db = true := by
  simp only [push]
  have hs1 : (if s._db then s else connect s)
      = { s with _client := true, _db := true } := by
    rw [if_neg (by simp [h])]
    unfold connect
    rw [if_neg (by simp [h])]
  rw [hs1]
  split
  · have hc := pushGroups_conn
      (_group_by_collection
        ({ s with _client := true, _db := true } : MongoOutlet α).collection
        records)
      ({ s with _client := true, _db := true }) rfl
    exact ⟨hc.2, hc.1⟩
  · exact ⟨rfl, rfl⟩

theorem push_connects_when_disconnected_witness :
    (push (⟨"c", false, false, [], false, []⟩ : MongoOutlet Nat)
        [⟨Payload.single 5, none⟩]).1._client = true :=
  (push_connects_when_disconnected
    (⟨"c", false, false, [], false, []⟩ : MongoOutlet Nat)
    [⟨Payload.single 5, none⟩] rfl).1

end Databay
